import Mathlib

/-
  Verification development for the backend.ai coordination subsystem.

  Shallow embedding of:
  - the session status aggregation algorithm (manager/models/session.py),
  - the Raft finite state machine (common/distributed/raft/raft.py),
  - the gRPC Raft client failure handling (common/distributed/raft/client.py),
  - the plugin entry point scanner (plugin/entrypoint.py),
  - the audit_logs schema migration (18d8eddd6be5_add_audit_logs_table.py).
-/

set_option maxHeartbeats 1000000

/-! ## Session status model (manager/models/session.py) -/

/-- Modelled from the spec: the kernel-level status enumeration lives in
manager/models/kernel.py, which is not part of the source snapshot; the spec
states it maps 1:1, name to name, onto SessionStatus with matching integer
values (PENDING(0) < RUNNING(30) etc.). -/
inductive KernelStatus where
  | PENDING | SCHEDULED | PREPARING | BUILDING | PULLING
  | RUNNING | RESTARTING | RESIZING | SUSPENDED
  | TERMINATING | TERMINATED | ERROR | CANCELLED
deriving DecidableEq, Repr

/-- SessionStatus enum from session.py with its explicit integer values. -/
inductive SessionStatus where
  | PENDING | SCHEDULED | PREPARING | BUILDING | PULLING
  | RUNNING | RESTARTING | RESIZING | SUSPENDED
  | TERMINATING | TERMINATED | ERROR | CANCELLED
deriving DecidableEq, Repr

def SessionStatus.value : SessionStatus → Nat
  | .PENDING => 0
  | .SCHEDULED => 5
  | .PREPARING => 10
  | .BUILDING => 20
  | .PULLING => 21
  | .RUNNING => 30
  | .RESTARTING => 31
  | .RESIZING => 32
  | .SUSPENDED => 33
  | .TERMINATING => 40
  | .TERMINATED => 41
  | .ERROR => 42
  | .CANCELLED => 43

/-- Modelled from the spec: kernel status integer values mirror the session
status values under the 1:1 name mapping. -/
def KernelStatus.value : KernelStatus → Nat
  | .PENDING => 0
  | .SCHEDULED => 5
  | .PREPARING => 10
  | .BUILDING => 20
  | .PULLING => 21
  | .RUNNING => 30
  | .RESTARTING => 31
  | .RESIZING => 32
  | .SUSPENDED => 33
  | .TERMINATING => 40
  | .TERMINATED => 41
  | .ERROR => 42
  | .CANCELLED => 43

/-- KERNEL_SESSION_STATUS_MAPPING from session.py: the total 1:1 map. -/
def KERNEL_SESSION_STATUS_MAPPING : KernelStatus → SessionStatus
  | .PENDING => .PENDING
  | .SCHEDULED => .SCHEDULED
  | .PREPARING => .PREPARING
  | .BUILDING => .BUILDING
  | .PULLING => .PULLING
  | .RUNNING => .RUNNING
  | .RESTARTING => .RESTARTING
  | .RESIZING => .RESIZING
  | .SUSPENDED => .SUSPENDED
  | .TERMINATING => .TERMINATING
  | .TERMINATED => .TERMINATED
  | .ERROR => .ERROR
  | .CANCELLED => .CANCELLED

/-- The four kernel statuses handled by the explicit match arms of
aggregate_kernel_status (the "finished" categories). -/
def KernelStatus.isFinishedStatus : KernelStatus → Bool
  | .ERROR | .TERMINATING | .CANCELLED | .TERMINATED => true
  | _ => false

/-- Loop state of aggregate_kernel_status: the `candidates` set (a Python
set, embedded as an insertion-ordered duplicate-free list), the
`priority_finished_status` accumulator and the `is_finished` flag. -/
structure AggState where
  candidates : List KernelStatus
  priority_finished_status : SessionStatus
  is_finished : Bool
deriving DecidableEq, Repr

/-- `candidates.add(s)`: Python set insertion. -/
def set_add (c : List KernelStatus) (s : KernelStatus) : List KernelStatus :=
  if s ∈ c then c else c ++ [s]

/-- One iteration of the `for s in kernel_statuses` loop body of
aggregate_kernel_status, matching the Python `match` arms. -/
def agg_step (st : AggState) (s : KernelStatus) : AggState :=
  match s with
  | .ERROR =>
      { st with priority_finished_status := .ERROR }
  | .TERMINATING =>
      if st.priority_finished_status ≠ SessionStatus.ERROR then
        { st with priority_finished_status := .TERMINATING }
      else st
  | .CANCELLED =>
      if st.priority_finished_status ∉
          [SessionStatus.ERROR, SessionStatus.TERMINATING] then
        { st with priority_finished_status := .CANCELLED }
      else st
  | .TERMINATED =>
      if st.priority_finished_status ∉
          [SessionStatus.ERROR, SessionStatus.CANCELLED, SessionStatus.TERMINATING] then
        { st with priority_finished_status := .TERMINATED }
      else st
  | _ =>
      { st with candidates := set_add st.candidates s, is_finished := false }

/-- Python `min(candidates, key=lambda s: s.value)`; `none` on an empty set
(where Python would raise ValueError). Ties cannot arise because `value` is
injective, so the set iteration order is irrelevant. -/
def min_by_value : List KernelStatus → Option KernelStatus
  | [] => none
  | s :: rest => some (rest.foldl (fun m x => if x.value < m.value then x else m) s)

/-- aggregate_kernel_status from session.py. The fallback arm of the final
match is unreachable: is_finished = false forces a nonempty candidate set. -/
def aggregate_kernel_status (kernel_statuses : List KernelStatus) : SessionStatus :=
  let st := kernel_statuses.foldl agg_step ⟨[], .TERMINATED, true⟩
  if st.is_finished then st.priority_finished_status
  else
    match min_by_value st.candidates with
    | some m => KERNEL_SESSION_STATUS_MAPPING m
    | none => st.priority_finished_status

/-! ## Raft finite state machine (common/distributed/raft/raft.py) -/

inductive RaftState where
  | FOLLOWER | CANDIDATE | LEADER
deriving DecidableEq, Repr

/-- The mutable fields of RaftFiniteStateMachine touched by the embedded
operations. `notifications` records the arguments of every
on_state_changed callback invocation (execute_transition). -/
structure RaftFSM where
  peers : List String
  current_term : Nat
  voted_for : Option String
  leader_id : Option String
  state : RaftState
  elapsed_time : ℚ
  notifications : List RaftState
deriving DecidableEq, Repr

def execute_transition (next_state : RaftState) (fsm : RaftFSM) : RaftFSM :=
  { fsm with state := next_state, notifications := fsm.notifications ++ [next_state] }

/-- _synchronize_term: if term > currentTerm, set currentTerm = term,
convert to follower and clear the vote; otherwise do nothing. -/
def synchronize_term (term : Nat) (fsm : RaftFSM) : RaftFSM :=
  if term > fsm.current_term then
    let fsm := { fsm with current_term := term }
    let fsm := execute_transition RaftState.FOLLOWER fsm
    { fsm with voted_for := none }
  else fsm

def reset_timeout (fsm : RaftFSM) : RaftFSM :=
  { fsm with elapsed_time := 0 }

def membership (fsm : RaftFSM) : Nat :=
  fsm.peers.length + 1

def quorum (fsm : RaftFSM) : Nat :=
  membership fsm / 2 + 1

/-- on_append_entries receiver implementation (the log parameters are
accepted but unused by the source body). -/
def on_append_entries (term : Nat) (leader_id : String)
    (prev_log_index prev_log_term : Nat) (entries : List String)
    (leader_commit : Nat) (fsm : RaftFSM) : RaftFSM × Bool :=
  let _ := (prev_log_index, prev_log_term, entries, leader_commit)
  if term < fsm.current_term then (fsm, false)
  else
    let fsm := synchronize_term term fsm
    let fsm := { fsm with leader_id := some leader_id }
    let fsm := reset_timeout fsm
    (fsm, true)

/-- on_request_vote receiver implementation: read current_term, synchronize,
reset the election clock, then decide on the pre-synchronization term. -/
def on_request_vote (term : Nat) (candidate_id : String)
    (last_log_index last_log_term : Nat) (fsm : RaftFSM) : RaftFSM × Bool :=
  let _ := (last_log_index, last_log_term)
  let current_term := fsm.current_term
  let fsm := synchronize_term term fsm
  let fsm := reset_timeout fsm
  if term < current_term then (fsm, false)
  else
    match fsm.voted_for with
    | none => ({ fsm with voted_for := some candidate_id }, true)
    | some c => if c = candidate_id then (fsm, true) else (fsm, false)

/-- The state in force at the moment the vote requests are issued inside
_request_vote: current term already bumped by one and the CANDIDATE
transition re-affirmed. -/
def candidate_issue_state (fsm : RaftFSM) : RaftFSM :=
  execute_transition RaftState.CANDIDATE (synchronize_term (fsm.current_term + 1) fsm)

/-- One _request_vote round. `results` are the vote_granted booleans
gathered from the peers; the second component is the term value passed to
client.request_vote for every peer (read before the bump). -/
def request_vote_round (fsm : RaftFSM) (results : List Bool) : RaftFSM × Nat :=
  let term := fsm.current_term
  let fsm1 := candidate_issue_state fsm
  if results.count true + 1 ≥ quorum fsm1 then
    (execute_transition RaftState.LEADER fsm1, term)
  else (fsm1, term)

/-! ## gRPC Raft client (common/distributed/raft/client.py) -/

/-- Outcome of awaiting the inner RPC coroutine under asyncio.wait_for:
either the stub call returned a reply, or it raised grpc.aio.AioRpcError,
or wait_for raised TimeoutError, or the bounding wait was cancelled. -/
inductive InnerOutcome where
  | reply (peer_term : Nat) (flag : Bool)
  | rpc_error
  | timeout_expiry
  | cancelled
deriving DecidableEq, Repr

inductive PyExn where
  | cancelled_error
deriving DecidableEq, Repr

/-- Observable result of one client call: what the coroutine returns (or
raises past the caller) and the channel open/close bookkeeping. -/
structure RpcCallResult where
  result : Except PyExn (Nat × Bool)
  channel_opened : Bool
  channel_closed : Bool
deriving Repr

/-- GrpcRaftClient.append_entries. The inner coroutine opens a channel,
catches AioRpcError as (term, False) and closes the channel in a finally
block (which also runs when wait_for cancels it on timeout or when the
bounding wait is cancelled); the outer wrapper catches both CancelledError
and TimeoutError and returns (term, False). -/
def grpc_append_entries (term : Nat) (o : InnerOutcome) : RpcCallResult :=
  { result :=
      match o with
      | .reply peer_term flag => .ok (peer_term, flag)
      | .rpc_error => .ok (term, false)
      | .timeout_expiry => .ok (term, false)
      | .cancelled => .ok (term, false)
    channel_opened := true
    channel_closed := true }

/-- GrpcRaftClient.request_vote. Same inner discipline, but the outer
wrapper catches only asyncio.TimeoutError, so a CancelledError of the
bounding wait propagates to the caller (after the finally block has closed
the channel). -/
def grpc_request_vote (term : Nat) (o : InnerOutcome) : RpcCallResult :=
  { result :=
      match o with
      | .reply peer_term flag => .ok (peer_term, flag)
      | .rpc_error => .ok (term, false)
      | .timeout_expiry => .ok (term, false)
      | .cancelled => .error PyExn.cancelled_error
    channel_opened := true
    channel_closed := true }

/-! ## Plugin entry point scanner (plugin/entrypoint.py) -/

structure EntryPoint where
  name : String
  value : String
  group : String
deriving DecidableEq, Repr

/-- The RuntimeError raised by scan_entrypoints, carrying the duplicated
name and both implementation references (existing_entrypoint.value and
entrypoint.value). -/
inductive ScanError where
  | duplicate_name (name first_value second_value : String)
deriving DecidableEq, Repr

/-- Python dict lookup existing_names.get(name), where the dict maps an
entry point name to the value of the first entry point kept under it. -/
def lookup_name (existing : List (String × String)) (n : String) : Option String :=
  (existing.find? (fun p => p.1 = n)).map (·.2)

/-- Loop of scan_entrypoints over the chained stream, with existing_names
as explicit accumulator. A blocklisted name is skipped; a name already in
existing_names raises RuntimeError naming both values; otherwise the entry
is recorded and yielded. -/
def scan_entrypoints_go (blocklist : List String) (existing : List (String × String)) :
    List EntryPoint → Except ScanError (List EntryPoint)
  | [] => .ok []
  | ep :: rest =>
    if ep.name ∈ blocklist then
      scan_entrypoints_go blocklist existing rest
    else
      match lookup_name existing ep.name with
      | some first_value => .error (.duplicate_name ep.name first_value ep.value)
      | none =>
          (scan_entrypoints_go blocklist ((ep.name, ep.value) :: existing) rest).map
            (fun out => ep :: out)

/-- scan_entrypoints, taking the already-chained input stream
(buildscript-sourced entries followed by package-metadata entries). -/
def scan_entrypoints (blocklist : List String) (stream : List EntryPoint) :
    Except ScanError (List EntryPoint) :=
  scan_entrypoints_go blocklist [] stream

/-- Python errors observable from scan_entrypoint_from_buildscript. -/
inductive PyError where
  | unbound_local
deriving DecidableEq, Repr

/-- find_build_root walking up from the start directory. The input list
gives, for the start directory and each successive ancestor up to and
including the filesystem root, whether it contains the BUILD_ROOT sentinel.
The loop checks the current directory, steps to the parent, and breaks
(raising ValueError) once the parent of the new current directory equals
itself — so the filesystem root is only ever checked when it is the start
directory itself. -/
def find_build_root : List Bool → Except Unit Nat
  | [] => .error ()
  | [d] => if d then .ok 0 else .error ()
  | d :: next :: rest =>
      if d then .ok 0
      else
        match rest with
        | [] => .error ()
        | _ => (find_build_root (next :: rest)).map (· + 1)

/-- Python dict insertion entrypoints[name] = entrypoint over an
insertion-ordered association: an existing key keeps its position and takes
the new value, a new key is appended. -/
def dict_insert (acc : List EntryPoint) (ep : EntryPoint) : List EntryPoint :=
  if acc.any (fun e => e.name = ep.name) then
    acc.map (fun e => if e.name = ep.name then ep else e)
  else acc ++ [ep]

/-- Abstract input for scan_entrypoint_from_buildscript: the BUILD_ROOT
sentinel chain, and for each BUILD file found under build_root/src and
under the package namespace directory, the entry points it declares for the
requested group (in declaration order). -/
structure BuildscriptEnv where
  chain : List Bool
  src_build_files : List (List EntryPoint)
  ns_build_files : List (List EntryPoint)

/-- scan_entrypoint_from_buildscript. When find_build_root raises
ValueError, the generator catches it and runs `yield from []` — but the
except branch has no return, so control falls through to the next
statement, which reads the never-assigned src_path local: iterating the
generator yields zero items and then raises UnboundLocalError. -/
def scan_entrypoint_from_buildscript (env : BuildscriptEnv) :
    List EntryPoint × Option PyError :=
  match find_build_root env.chain with
  | .error _ => ([], some PyError.unbound_local)
  | .ok _ =>
      let m := (env.src_build_files ++ env.ns_build_files).foldl
        (fun acc eps => eps.foldl dict_insert acc) []
      (m, none)

/-! ## Audit log schema migration (18d8eddd6be5_add_audit_logs_table.py) -/

structure Column where
  name : String
  ctype : String
deriving DecidableEq, Repr

structure TableIndex where
  name : String
  table : String
  columns : List String
deriving DecidableEq, Repr

structure Schema where
  tables : List (String × List Column)
  indexes : List TableIndex
deriving DecidableEq, Repr

def create_table (s : Schema) (tname : String) (cols : List Column) :
    Except String Schema :=
  if s.tables.any (fun t => t.1 = tname) then .error "table already exists"
  else .ok { s with tables := s.tables ++ [(tname, cols)] }

def create_index (s : Schema) (iname tname : String) (cols : List String) :
    Except String Schema :=
  if s.indexes.any (fun i => i.name = iname) then .error "index already exists"
  else if s.tables.any (fun t => t.1 = tname) then
    .ok { s with indexes := s.indexes ++ [⟨iname, tname, cols⟩] }
  else .error "no such table"

/-- DROP INDEX by name; index names are kept unique by create_index, so
removing every index with the name removes exactly the one index. -/
def drop_index (s : Schema) (iname : String) : Except String Schema :=
  if s.indexes.any (fun i => i.name = iname) then
    .ok { s with indexes := s.indexes.filter (fun i => i.name ≠ iname) }
  else .error "no such index"

def drop_table (s : Schema) (tname : String) : Except String Schema :=
  if s.tables.any (fun t => t.1 = tname) then
    .ok { s with tables := s.tables.filter (fun t => t.1 ≠ tname) }
  else .error "no such table"

def audit_logs_columns : List Column :=
  [⟨"user_id", "varchar(256)"⟩,
   ⟨"access_key", "varchar(20)"⟩,
   ⟨"email", "varchar(64)"⟩,
   ⟨"action", "enum(CREATE,CHANGE,DELETE)"⟩,
   ⟨"data", "jsonb"⟩,
   ⟨"target", "varchar(64)"⟩,
   ⟨"created_at", "timestamptz default now()"⟩]

def audit_index_names : List String :=
  ["ix_audit_logs_access_key", "ix_audit_logs_action", "ix_audit_logs_created_at",
   "ix_audit_logs_email", "ix_audit_logs_target", "ix_audit_logs_user_id"]

def audit_indexes : List TableIndex :=
  [⟨"ix_audit_logs_access_key", "audit_logs", ["access_key"]⟩,
   ⟨"ix_audit_logs_action", "audit_logs", ["action"]⟩,
   ⟨"ix_audit_logs_created_at", "audit_logs", ["created_at"]⟩,
   ⟨"ix_audit_logs_email", "audit_logs", ["email"]⟩,
   ⟨"ix_audit_logs_target", "audit_logs", ["target"]⟩,
   ⟨"ix_audit_logs_user_id", "audit_logs", ["user_id"]⟩]

/-- upgrade(): create audit_logs, then its six indexes in source order. -/
def upgrade (s : Schema) : Except String Schema := do
  let s ← create_table s "audit_logs" audit_logs_columns
  let s ← create_index s "ix_audit_logs_access_key" "audit_logs" ["access_key"]
  let s ← create_index s "ix_audit_logs_action" "audit_logs" ["action"]
  let s ← create_index s "ix_audit_logs_created_at" "audit_logs" ["created_at"]
  let s ← create_index s "ix_audit_logs_email" "audit_logs" ["email"]
  let s ← create_index s "ix_audit_logs_target" "audit_logs" ["target"]
  let s ← create_index s "ix_audit_logs_user_id" "audit_logs" ["user_id"]
  pure s

/-- downgrade(): drop the six indexes in reverse order, then the table. -/
def downgrade (s : Schema) : Except String Schema := do
  let s ← drop_index s "ix_audit_logs_user_id"
  let s ← drop_index s "ix_audit_logs_target"
  let s ← drop_index s "ix_audit_logs_email"
  let s ← drop_index s "ix_audit_logs_created_at"
  let s ← drop_index s "ix_audit_logs_action"
  let s ← drop_index s "ix_audit_logs_access_key"
  let s ← drop_table s "audit_logs"
  pure s

/-! ## Specification-side helper predicates -/

/-- The four possible values of the priority_finished_status accumulator. -/
def fin4 (p : SessionStatus) : Prop :=
  p = SessionStatus.ERROR ∨ p = SessionStatus.TERMINATING ∨
  p = SessionStatus.CANCELLED ∨ p = SessionStatus.TERMINATED

/-- Spec-side characterization of the resolved finished status: the
highest-priority finished status seen, under
ERROR > TERMINATING > CANCELLED > TERMINATED, combined with the running
accumulator value p. -/
def prio_of (l : List KernelStatus) (p : SessionStatus) : SessionStatus :=
  if KernelStatus.ERROR ∈ l ∨ p = SessionStatus.ERROR then SessionStatus.ERROR
  else if KernelStatus.TERMINATING ∈ l ∨ p = SessionStatus.TERMINATING then
    SessionStatus.TERMINATING
  else if KernelStatus.CANCELLED ∈ l ∨ p = SessionStatus.CANCELLED then
    SessionStatus.CANCELLED
  else SessionStatus.TERMINATED

/-! ## Theorems -/

/-- C9: aggregate_kernel_status on the empty sequence returns TERMINATED:
the loop never runs, so is_finished stays true and
priority_finished_status keeps its initial TERMINATED value. -/
theorem aggregate_empty_terminated :
    aggregate_kernel_status [] = SessionStatus.TERMINATED ∧
    ([] : List KernelStatus).foldl agg_step ⟨[], .TERMINATED, true⟩ =
      ⟨[], SessionStatus.TERMINATED, true⟩ :=
  ⟨rfl, rfl⟩

/-- C7: an on_request_vote call whose term is strictly below the receiver
current term returns false, yet the election-timeout elapsed counter has
been reset to zero, because the reset runs unconditionally before the
stale-term check. -/
theorem stale_vote_rejected_clock_reset (fsm : RaftFSM) (term : Nat)
    (cand : String) (lli llt : Nat) (h : term < fsm.current_term) :
    (on_request_vote term cand lli llt fsm).2 = false ∧
    (on_request_vote term cand lli llt fsm).1.elapsed_time = 0 := by
  have hng : ¬ term > fsm.current_term := by omega
  simp [on_request_vote, synchronize_term, reset_timeout, hng, h]

theorem stale_vote_rejected_clock_reset_witness :
    (0 : Nat) < 3 ∧
    (on_request_vote 0 "c" 0 0 ⟨[], 3, none, none, .FOLLOWER, 7, []⟩).2 = false ∧
    (on_request_vote 0 "c" 0 0 ⟨[], 3, none, none, .FOLLOWER, 7, []⟩).1.elapsed_time = 0 := by
  refine ⟨by decide, ?_⟩
  exact stale_vote_rejected_clock_reset ⟨[], 3, none, none, .FOLLOWER, 7, []⟩ 0 "c" 0 0 (by decide)

/-- C10: the term sent to every peer during a candidate vote round is the
current term read before the increment, i.e. one less than the current
term at the moment the requests are issued. -/
theorem campaign_uses_pre_increment_term (fsm : RaftFSM) (results : List Bool) :
    (request_vote_round fsm results).2 = fsm.current_term ∧
    (candidate_issue_state fsm).current_term = fsm.current_term + 1 ∧
    (request_vote_round fsm results).2 + 1 = (candidate_issue_state fsm).current_term := by
  have hlt : fsm.current_term < fsm.current_term + 1 := Nat.lt_succ_self _
  refine ⟨?_, ?_, ?_⟩ <;>
    simp [request_vote_round, candidate_issue_state, synchronize_term,
      execute_transition, hlt] <;>
    split <;> rfl

/-- Helper: the candidate issue state keeps the peer tuple unchanged. -/
theorem candidate_issue_state_peers (fsm : RaftFSM) :
    (candidate_issue_state fsm).peers = fsm.peers := by
  simp only [candidate_issue_state, execute_transition, synchronize_term]
  split <;> rfl

/-- C5: after one candidate vote round over p peers the FSM is LEADER iff
granted votes plus its own vote reach quorum = floor((p + 1) / 2) + 1;
with zero peers the quorum is 1 and with five total members it is 3. -/
theorem leader_iff_quorum (fsm : RaftFSM) (results : List Bool)
    (h : results.length = fsm.peers.length) :
    ((request_vote_round fsm results).1.state = RaftState.LEADER ↔
      results.count true + 1 ≥ (fsm.peers.length + 1) / 2 + 1) ∧
    (fsm.peers.length = 0 → quorum fsm = 1) ∧
    (membership fsm = 5 → quorum fsm = 3) := by
  refine ⟨?_, ?_, ?_⟩
  · have hq : quorum (candidate_issue_state fsm) = (fsm.peers.length + 1) / 2 + 1 := by
      simp [quorum, membership, candidate_issue_state_peers]
    rw [request_vote_round]
    split
    · rename_i hcond
      simp [execute_transition]
      omega
    · rename_i hcond
      rw [hq] at hcond
      constructor
      · intro hst
        exfalso
        have : (candidate_issue_state fsm).state = RaftState.CANDIDATE := by
          simp [candidate_issue_state, execute_transition]
        simp_all
      · intro hge
        exact absurd (hq ▸ hge) hcond
  · intro h0
    simp [quorum, membership, h0]
  · intro h5
    simp [membership] at h5
    simp [quorum, membership, h5]

theorem leader_iff_quorum_witness :
    ([true, true, false, false].length = (["p1", "p2", "p3", "p4"] : List String).length) ∧
    ((request_vote_round ⟨["p1", "p2", "p3", "p4"], 0, none, none, .FOLLOWER, 0, []⟩
        [true, true, false, false]).1.state = RaftState.LEADER ↔
      [true, true, false, false].count true + 1 ≥
        ((["p1", "p2", "p3", "p4"] : List String).length + 1) / 2 + 1) := by
  refine ⟨by decide, ?_⟩
  exact (leader_iff_quorum ⟨["p1", "p2", "p3", "p4"], 0, none, none, .FOLLOWER, 0, []⟩
    [true, true, false, false] (by decide)).1

/-- C2 counterexample: starting from a fresh FSM at term 0 with no vote, an
on_request_vote carrying term 1 > 0 synchronizes the term and state but
then immediately records a vote for the calling candidate, so the recorded
vote is NOT absent after the call, contradicting the claim. -/
theorem sync_vote_recorded_cex :
    (on_request_vote 1 "c" 0 0 ⟨[], 0, none, none, .FOLLOWER, 0, []⟩).1.current_term = 1 ∧
    (on_request_vote 1 "c" 0 0 ⟨[], 0, none, none, .FOLLOWER, 0, []⟩).1.state =
      RaftState.FOLLOWER ∧
    (on_request_vote 1 "c" 0 0 ⟨[], 0, none, none, .FOLLOWER, 0, []⟩).1.voted_for =
      some "c" ∧
    (on_request_vote 1 "c" 0 0 ⟨[], 0, none, none, .FOLLOWER, 0, []⟩).1.voted_for ≠
      none := by
  refine ⟨rfl, rfl, rfl, ?_⟩
  intro hcontra
  simp [on_request_vote, synchronize_term, reset_timeout, execute_transition] at hcontra

/-- C2 amended: for T strictly greater than the current term,
_synchronize_term and on_append_entries leave term = T, state FOLLOWER and
no recorded vote; on_request_vote carrying T leaves term = T and state
FOLLOWER but records a vote for the requesting candidate (the vote cleared
by synchronization is immediately re-cast). For T less than or equal to
the current term, _synchronize_term changes nothing. -/
theorem term_sync_amended (fsm : RaftFSM) (term : Nat) (leader cand : String)
    (pli plt lc lli llt : Nat) (entries : List String) :
    (fsm.current_term < term →
      ((synchronize_term term fsm).current_term = term ∧
       (synchronize_term term fsm).state = RaftState.FOLLOWER ∧
       (synchronize_term term fsm).voted_for = none) ∧
      ((on_append_entries term leader pli plt entries lc fsm).1.current_term = term ∧
       (on_append_entries term leader pli plt entries lc fsm).1.state = RaftState.FOLLOWER ∧
       (on_append_entries term leader pli plt entries lc fsm).1.voted_for = none) ∧
      ((on_request_vote term cand lli llt fsm).1.current_term = term ∧
       (on_request_vote term cand lli llt fsm).1.state = RaftState.FOLLOWER ∧
       (on_request_vote term cand lli llt fsm).1.voted_for = some cand)) ∧
    (term ≤ fsm.current_term → synchronize_term term fsm = fsm) := by
  constructor
  · intro hgt
    have hnlt : ¬ term < fsm.current_term := by omega
    refine ⟨?_, ?_, ?_⟩ <;>
      simp [synchronize_term, on_append_entries, on_request_vote, reset_timeout,
        execute_transition, hgt, hnlt]
  · intro hle
    have hngt : ¬ term > fsm.current_term := by omega
    simp [synchronize_term, hngt]

theorem term_sync_amended_witness :
    (3 : Nat) < 5 ∧
    (on_request_vote 5 "cand" 0 0 ⟨[], 3, some "other", none, .LEADER, 2, []⟩).1.current_term = 5 ∧
    (on_request_vote 5 "cand" 0 0 ⟨[], 3, some "other", none, .LEADER, 2, []⟩).1.state =
      RaftState.FOLLOWER ∧
    (on_request_vote 5 "cand" 0 0 ⟨[], 3, some "other", none, .LEADER, 2, []⟩).1.voted_for =
      some "cand" := by
  refine ⟨by decide, ?_⟩
  exact ((term_sync_amended ⟨[], 3, some "other", none, .LEADER, 2, []⟩ 5 "ldr" "cand"
    0 0 0 0 0 []).1 (by decide)).2.2

/-- C4 counterexample: a cancellation of the bounding wait in
GrpcRaftClient.request_vote is not absorbed: only asyncio.TimeoutError is
caught, so the CancelledError propagates to the caller instead of the call
returning (term, false). -/
theorem client_cancel_cex :
    (grpc_request_vote 7 InnerOutcome.cancelled).result = .error PyExn.cancelled_error ∧
    (grpc_request_vote 7 InnerOutcome.cancelled).result ≠ .ok (7, false) := by
  refine ⟨rfl, ?_⟩
  intro hcontra
  simp [grpc_request_vote] at hcontra

/-- C4 amended: both client calls always release the channel they open, and
return (locally known term, false) without raising on transport errors and
timeout expiry; append_entries additionally absorbs cancellation of the
bounding wait, while request_vote lets that cancellation propagate. -/
theorem client_failure_amended (t : Nat) (o : InnerOutcome) :
    (grpc_append_entries t o).channel_opened = true ∧
    (grpc_append_entries t o).channel_closed = true ∧
    (grpc_request_vote t o).channel_opened = true ∧
    (grpc_request_vote t o).channel_closed = true ∧
    ((o = .rpc_error ∨ o = .timeout_expiry ∨ o = .cancelled) →
      (grpc_append_entries t o).result = .ok (t, false)) ∧
    ((o = .rpc_error ∨ o = .timeout_expiry) →
      (grpc_request_vote t o).result = .ok (t, false)) ∧
    (grpc_request_vote t .cancelled).result = .error PyExn.cancelled_error := by
  cases o <;> simp [grpc_append_entries, grpc_request_vote]

theorem client_failure_amended_witness :
    (InnerOutcome.timeout_expiry = InnerOutcome.rpc_error ∨
      InnerOutcome.timeout_expiry = InnerOutcome.timeout_expiry) ∧
    (grpc_request_vote 9 InnerOutcome.timeout_expiry).result = .ok (9, false) ∧
    (grpc_append_entries 9 InnerOutcome.timeout_expiry).channel_closed = true := by
  refine ⟨Or.inr rfl, ?_, ?_⟩
  · exact (client_failure_amended 9 InnerOutcome.timeout_expiry).2.2.2.2.2.1 (Or.inr rfl)
  · exact (client_failure_amended 9 InnerOutcome.timeout_expiry).2.1

/-- Helper: when no directory of the chain carries the BUILD_ROOT sentinel,
find_build_root raises (ValueError). -/
theorem find_build_root_all_false (chain : List Bool)
    (h : ∀ b ∈ chain, b = false) : find_build_root chain = .error () := by
  induction chain with
  | nil => rfl
  | cons d rest ih =>
    have hd : d = false := h d (List.mem_cons_self d rest)
    cases rest with
    | nil => simp [find_build_root, hd]
    | cons next rest2 =>
      have hrec : find_build_root (next :: rest2) = .error () := by
        refine ih ?_
        intro b hb
        exact h b (List.mem_cons_of_mem d hb)
      cases rest2 with
      | nil => simp [find_build_root, hd]
      | cons r3 rest3 =>
        have step : find_build_root (d :: next :: r3 :: rest3) =
            if d = true then Except.ok 0
            else (find_build_root (next :: r3 :: rest3)).map (· + 1) := rfl
        rw [step, hd, hrec]
        rfl

/-- C6 (code bug): when no ancestor of the start directory contains the
BUILD_ROOT sentinel, scan_entrypoint_from_buildscript yields zero entries
but then raises UnboundLocalError when iterated: the ValueError handler
performs `yield from []` without returning, so control reads the unbound
src_path local. The spec intends the failure to be recovered as "no
build-script entries". -/
theorem buildscript_unbound_local (env : BuildscriptEnv)
    (h : ∀ b ∈ env.chain, b = false) :
    scan_entrypoint_from_buildscript env = ([], some PyError.unbound_local) := by
  simp [scan_entrypoint_from_buildscript, find_build_root_all_false env.chain h]

theorem buildscript_unbound_local_witness :
    (∀ b ∈ [false, false, false], b = false) ∧
    scan_entrypoint_from_buildscript ⟨[false, false, false], [], []⟩ =
      ([], some PyError.unbound_local) := by
  refine ⟨by decide, ?_⟩
  exact buildscript_unbound_local ⟨[false, false, false], [], []⟩ (by decide)

/-- The loop body never flips is_finished back to true: it ands the flag
with the finished-ness of the processed status. -/
theorem agg_step_is_finished (σ : AggState) (s : KernelStatus) :
    (agg_step σ s).is_finished = (σ.is_finished && s.isFinishedStatus) := by
  cases s <;> simp [agg_step, KernelStatus.isFinishedStatus] <;> (try split) <;> rfl

/-- The loop body adds exactly the non-finished statuses to candidates. -/
theorem agg_step_candidates (σ : AggState) (s : KernelStatus) :
    (agg_step σ s).candidates =
      (if s.isFinishedStatus then σ.candidates else set_add σ.candidates s) := by
  cases s <;> simp [agg_step, KernelStatus.isFinishedStatus] <;> (try split) <;> rfl

theorem set_add_mem (c : List KernelStatus) (s x : KernelStatus) :
    x ∈ set_add c s ↔ x ∈ c ∨ x = s := by
  unfold set_add
  split
  · rename_i hsc
    constructor
    · exact Or.inl
    · rintro (hx | rfl)
      · exact hx
      · exact hsc
  · simp

theorem foldl_agg_is_finished (l : List KernelStatus) :
    ∀ σ : AggState, (l.foldl agg_step σ).is_finished =
      (σ.is_finished && l.all KernelStatus.isFinishedStatus) := by
  induction l with
  | nil => intro σ; simp
  | cons s rest ih =>
    intro σ
    rw [List.foldl_cons, ih, agg_step_is_finished, List.all_cons]
    cases σ.is_finished <;> cases h : s.isFinishedStatus <;> simp

theorem foldl_agg_candidates_mem (l : List KernelStatus) :
    ∀ (σ : AggState) (x : KernelStatus),
      x ∈ (l.foldl agg_step σ).candidates ↔
        x ∈ σ.candidates ∨ (x ∈ l ∧ x.isFinishedStatus = false) := by
  induction l with
  | nil => intro σ x; simp
  | cons s rest ih =>
    intro σ x
    rw [List.foldl_cons, ih]
    rw [show (agg_step σ s).candidates =
      (if s.isFinishedStatus then σ.candidates else set_add σ.candidates s) from
      agg_step_candidates σ s]
    by_cases hf : s.isFinishedStatus = true
    · rw [if_pos hf]
      simp only [List.mem_cons]
      constructor
      · rintro (hx | ⟨hmem, hnf⟩)
        · exact Or.inl hx
        · exact Or.inr ⟨Or.inr hmem, hnf⟩
      · rintro (hx | ⟨hmem | hmem, hnf⟩)
        · exact Or.inl hx
        · subst hmem; rw [hf] at hnf; cases hnf
        · exact Or.inr ⟨hmem, hnf⟩
    · rw [if_neg hf]
      rw [show ∀ a b, (a ∈ set_add b s ↔ a ∈ b ∨ a = s) from fun a b => set_add_mem b s a]
      simp only [List.mem_cons]
      rw [Bool.not_eq_true] at hf
      constructor
      · rintro ((hx | rfl) | ⟨hmem, hnf⟩)
        · exact Or.inl hx
        · exact Or.inr ⟨Or.inl rfl, hf⟩
        · exact Or.inr ⟨Or.inr hmem, hnf⟩
      · rintro (hx | ⟨hmem | hmem, hnf⟩)
        · exact Or.inl (Or.inl hx)
        · subst hmem; exact Or.inl (Or.inr rfl)
        · exact Or.inr ⟨hmem, hnf⟩

theorem agg_step_priority_fin4 (σ : AggState) (s : KernelStatus)
    (hp : fin4 σ.priority_finished_status) :
    fin4 (agg_step σ s).priority_finished_status := by
  rcases hp with hp | hp | hp | hp <;> cases s <;>
    simp [agg_step, fin4, hp]

theorem foldl_agg_priority (l : List KernelStatus) :
    ∀ σ : AggState, fin4 σ.priority_finished_status →
      (l.foldl agg_step σ).priority_finished_status =
        prio_of l σ.priority_finished_status := by
  induction l with
  | nil =>
    intro σ hp
    rcases hp with hp | hp | hp | hp <;> simp [prio_of, hp]
  | cons s rest ih =>
    intro σ hp
    rw [List.foldl_cons, ih _ (agg_step_priority_fin4 σ s hp)]
    rcases hp with hp | hp | hp | hp <;> cases s <;>
      simp [agg_step, prio_of, hp, List.mem_cons]

theorem foldl_min_spec (rest : List KernelStatus) :
    ∀ a : KernelStatus,
      (rest.foldl (fun m x => if x.value < m.value then x else m) a = a ∨
        rest.foldl (fun m x => if x.value < m.value then x else m) a ∈ rest) ∧
      (rest.foldl (fun m x => if x.value < m.value then x else m) a).value ≤ a.value ∧
      ∀ x ∈ rest,
        (rest.foldl (fun m x => if x.value < m.value then x else m) a).value ≤ x.value := by
  induction rest with
  | nil => intro a; simp
  | cons y ys ih =>
    intro a
    rw [List.foldl_cons]
    obtain ⟨h1, h2, h3⟩ := ih (if y.value < a.value then y else a)
    have hba : (if y.value < a.value then y else a).value ≤ a.value := by
      split <;> omega
    have hby : (if y.value < a.value then y else a).value ≤ y.value := by
      split <;> omega
    refine ⟨?_, le_trans h2 hba, ?_⟩
    · rcases h1 with h | h
      · rw [h]
        split
        · exact Or.inr (List.mem_cons_self y ys)
        · exact Or.inl rfl
      · exact Or.inr (List.mem_cons_of_mem y h)
    · intro x hx
      rcases List.mem_cons.mp hx with rfl | hx
      · exact le_trans h2 hby
      · exact h3 x hx

theorem min_by_value_spec (l : List KernelStatus) (h : l ≠ []) :
    ∃ m, min_by_value l = some m ∧ m ∈ l ∧ ∀ x ∈ l, m.value ≤ x.value := by
  cases l with
  | nil => exact absurd rfl h
  | cons s rest =>
    obtain ⟨h1, h2, h3⟩ := foldl_min_spec rest s
    refine ⟨_, rfl, ?_, ?_⟩
    · rcases h1 with h1 | h1
      · rw [h1]; exact List.mem_cons_self s rest
      · exact List.mem_cons_of_mem s h1
    · intro x hx
      rcases List.mem_cons.mp hx with rfl | hx
      · exact h2
      · exact h3 x hx

/-- C1: on a non-empty status sequence, aggregate_kernel_status returns the
session image of the lowest-valued non-finished status when one exists,
and otherwise the highest-priority finished status present under
ERROR > TERMINATING > CANCELLED > TERMINATED; including the two concrete
cases named by the spec. -/
theorem aggregate_status_spec (l : List KernelStatus) (hne : l ≠ []) :
    ((∃ s ∈ l, s.isFinishedStatus = false) →
      ∃ m, m ∈ l ∧ m.isFinishedStatus = false ∧
        (∀ s ∈ l, s.isFinishedStatus = false → m.value ≤ s.value) ∧
        aggregate_kernel_status l = KERNEL_SESSION_STATUS_MAPPING m) ∧
    ((∀ s ∈ l, s.isFinishedStatus = true) →
      aggregate_kernel_status l =
        (if KernelStatus.ERROR ∈ l then SessionStatus.ERROR
         else if KernelStatus.TERMINATING ∈ l then SessionStatus.TERMINATING
         else if KernelStatus.CANCELLED ∈ l then SessionStatus.CANCELLED
         else SessionStatus.TERMINATED)) ∧
    aggregate_kernel_status [.TERMINATED, .CANCELLED, .TERMINATING] =
      SessionStatus.TERMINATING ∧
    aggregate_kernel_status [.RUNNING, .PENDING] =
      KERNEL_SESSION_STATUS_MAPPING KernelStatus.PENDING := by
  refine ⟨?_, ?_, by decide, by decide⟩
  · rintro ⟨s0, hs0mem, hs0nf⟩
    have hflag : (l.foldl agg_step ⟨[], .TERMINATED, true⟩).is_finished = false := by
      rw [foldl_agg_is_finished]
      have : l.all KernelStatus.isFinishedStatus = false := by
        rw [List.all_eq_false]
        exact ⟨s0, hs0mem, by rw [hs0nf]; simp⟩
      rw [this]
      rfl
    have hcand : ∀ x, x ∈ (l.foldl agg_step ⟨[], .TERMINATED, true⟩).candidates ↔
        (x ∈ l ∧ x.isFinishedStatus = false) := by
      intro x
      rw [foldl_agg_candidates_mem]
      simp
    have hne2 : (l.foldl agg_step ⟨[], .TERMINATED, true⟩).candidates ≠ [] :=
      List.ne_nil_of_mem ((hcand s0).mpr ⟨hs0mem, hs0nf⟩)
    obtain ⟨m, hmin, hmem, hmax⟩ := min_by_value_spec _ hne2
    refine ⟨m, ((hcand m).mp hmem).1, ((hcand m).mp hmem).2, ?_, ?_⟩
    · intro s hs hnf
      exact hmax s ((hcand s).mpr ⟨hs, hnf⟩)
    · simp only [aggregate_kernel_status, hflag, hmin, Bool.false_eq_true, if_false]
  · intro hall
    have hflag : (l.foldl agg_step ⟨[], .TERMINATED, true⟩).is_finished = true := by
      rw [foldl_agg_is_finished]
      have : l.all KernelStatus.isFinishedStatus = true := List.all_eq_true.mpr hall
      rw [this]
      rfl
    have hprio := foldl_agg_priority l ⟨[], .TERMINATED, true⟩
      (Or.inr (Or.inr (Or.inr rfl)))
    simp only [aggregate_kernel_status, hflag, if_true, hprio]
    simp [prio_of]

theorem aggregate_status_spec_witness :
    ([KernelStatus.RUNNING, KernelStatus.PENDING] ≠ ([] : List KernelStatus)) ∧
    aggregate_kernel_status [KernelStatus.RUNNING, KernelStatus.PENDING] =
      KERNEL_SESSION_STATUS_MAPPING KernelStatus.PENDING := by
  refine ⟨by simp, ?_⟩
  exact (aggregate_status_spec [KernelStatus.RUNNING, KernelStatus.PENDING]
    (by simp)).2.2.2

theorem lookup_name_nil (k : String) : lookup_name [] k = none := rfl

theorem lookup_name_cons (n v k : String) (ex : List (String × String)) :
    lookup_name ((n, v) :: ex) k = if n = k then some v else lookup_name ex k := by
  by_cases h : n = k
  · simp [lookup_name, List.find?_cons, h]
  · simp [lookup_name, List.find?_cons, h]

/-- A successful scan returns exactly the non-blocklisted entries of the
stream, in order. -/
theorem scan_go_ok (bl : List String) (stream : List EntryPoint) :
    ∀ (ex : List (String × String)) (out : List EntryPoint),
      scan_entrypoints_go bl ex stream = .ok out →
      out = stream.filter (fun e => e.name ∉ bl) := by
  induction stream with
  | nil =>
    intro ex out h
    simp [scan_entrypoints_go] at h
    simp [h]
  | cons ep rest ih =>
    intro ex out h
    rw [scan_entrypoints_go] at h
    by_cases hbl : ep.name ∈ bl
    · rw [if_pos hbl] at h
      rw [List.filter_cons, if_neg (by simp [hbl])]
      exact ih _ _ h
    · rw [if_neg hbl] at h
      cases hlk : lookup_name ex ep.name with
      | some v => rw [hlk] at h; simp at h
      | none =>
        rw [hlk] at h
        cases hgo : scan_entrypoints_go bl ((ep.name, ep.value) :: ex) rest with
        | error e => rw [hgo] at h; simp [Except.map] at h
        | ok out2 =>
          rw [hgo] at h
          simp [Except.map] at h
          rw [List.filter_cons, if_pos (by simp [hbl]), ← ih _ _ hgo, ← h]

/-- A scan succeeds exactly when the non-blocklisted names are pairwise
distinct and none of them is already recorded in existing_names. -/
theorem scan_go_ok_iff (bl : List String) (stream : List EntryPoint) :
    ∀ ex : List (String × String),
      (∃ out, scan_entrypoints_go bl ex stream = .ok out) ↔
        (((stream.filter (fun e => e.name ∉ bl)).map (fun e => e.name)).Nodup ∧
         ∀ e ∈ stream, e.name ∉ bl → lookup_name ex e.name = none) := by
  induction stream with
  | nil =>
    intro ex
    simp [scan_entrypoints_go]
  | cons ep rest ih =>
    intro ex
    rw [scan_entrypoints_go]
    by_cases hbl : ep.name ∈ bl
    · rw [if_pos hbl, ih ex, List.filter_cons, if_neg (by simp [hbl])]
      constructor
      · rintro ⟨hnd, hlk⟩
        refine ⟨hnd, ?_⟩
        intro e he henb
        rcases List.mem_cons.mp he with rfl | he
        · exact absurd hbl henb
        · exact hlk e he henb
      · rintro ⟨hnd, hlk⟩
        exact ⟨hnd, fun e he henb => hlk e (List.mem_cons_of_mem ep he) henb⟩
    · rw [if_neg hbl]
      cases hlk : lookup_name ex ep.name with
      | some v =>
        constructor
        · rintro ⟨out, hout⟩
          simp at hout
        · rintro ⟨hnd, hall⟩
          have := hall ep (List.mem_cons_self ep rest) hbl
          rw [hlk] at this
          cases this
      | none =>
        have hmap : (∃ out, ((scan_entrypoints_go bl ((ep.name, ep.value) :: ex) rest).map
            (fun out => ep :: out)) = .ok out) ↔
            (∃ out, scan_entrypoints_go bl ((ep.name, ep.value) :: ex) rest = .ok out) := by
          cases hgo : scan_entrypoints_go bl ((ep.name, ep.value) :: ex) rest <;>
            simp [Except.map]
        rw [hmap, ih ((ep.name, ep.value) :: ex), List.filter_cons,
          if_pos (by simp [hbl]), List.map_cons, List.nodup_cons]
        constructor
        · rintro ⟨hnd, hall⟩
          refine ⟨⟨?_, hnd⟩, ?_⟩
          · intro hmemname
            obtain ⟨e, hemem, hename⟩ := List.mem_map.mp hmemname
            have hef := List.mem_filter.mp hemem
            have := hall e hef.1 (by simpa using hef.2)
            rw [lookup_name_cons, hename] at this
            simp at this
          · intro e he henb
            rcases List.mem_cons.mp he with rfl | he
            · exact hlk
            · have := hall e he henb
              rw [lookup_name_cons] at this
              split at this
              · cases this
              · exact this
        · rintro ⟨⟨hnotin, hnd⟩, hall⟩
          refine ⟨hnd, ?_⟩
          intro e he henb
          rw [lookup_name_cons]
          split
          · rename_i heq
            exfalso
            exact hnotin (List.mem_map.mpr ⟨e,
              List.mem_filter.mpr ⟨he, by simpa using henb⟩, heq.symm⟩)
          · exact hall e (List.mem_cons_of_mem ep he) henb

/-- A duplicate-name failure reports a non-blocklisted name together with
both implementation references: the second always comes from the stream,
the first either from existing_names or from an earlier stream entry. -/
theorem scan_go_error (bl : List String) (stream : List EntryPoint) :
    ∀ (ex : List (String × String)) (n v1 v2 : String),
      scan_entrypoints_go bl ex stream = .error (.duplicate_name n v1 v2) →
      n ∉ bl ∧ (∃ e ∈ stream, e.name = n ∧ e.value = v2) ∧
      (lookup_name ex n = some v1 ∨ ∃ e ∈ stream, e.name = n ∧ e.value = v1) := by
  induction stream with
  | nil =>
    intro ex n v1 v2 h
    simp [scan_entrypoints_go] at h
  | cons ep rest ih =>
    intro ex n v1 v2 h
    rw [scan_entrypoints_go] at h
    by_cases hbl : ep.name ∈ bl
    · rw [if_pos hbl] at h
      obtain ⟨hnb, ⟨e2, he2, hn2, hv2⟩, hfst⟩ := ih ex n v1 v2 h
      refine ⟨hnb, ⟨e2, List.mem_cons_of_mem ep he2, hn2, hv2⟩, ?_⟩
      rcases hfst with hfst | ⟨e1, he1, hn1, hv1⟩
      · exact Or.inl hfst
      · exact Or.inr ⟨e1, List.mem_cons_of_mem ep he1, hn1, hv1⟩
    · rw [if_neg hbl] at h
      cases hlk : lookup_name ex ep.name with
      | some v =>
        rw [hlk] at h
        injection h with h
        injection h with hn hv1 hv2
        subst hn; subst hv1; subst hv2
        exact ⟨hbl, ⟨ep, List.mem_cons_self ep rest, rfl, rfl⟩, Or.inl hlk⟩
      | none =>
        rw [hlk] at h
        cases hgo : scan_entrypoints_go bl ((ep.name, ep.value) :: ex) rest with
        | ok out => rw [hgo] at h; simp [Except.map] at h
        | error err =>
          rw [hgo] at h
          simp [Except.map] at h
          obtain ⟨hnb, ⟨e2, he2, hn2, hv2⟩, hfst⟩ := ih _ n v1 v2 (by rw [hgo, h])
          refine ⟨hnb, ⟨e2, List.mem_cons_of_mem ep he2, hn2, hv2⟩, ?_⟩
          rcases hfst with hfst | ⟨e1, he1, hn1, hv1⟩
          · rw [lookup_name_cons] at hfst
            split at hfst
            · rename_i heq
              injection hfst with hfst
              exact Or.inr ⟨ep, List.mem_cons_self ep rest, heq, hfst⟩
            · exact Or.inl hfst
          · exact Or.inr ⟨e1, List.mem_cons_of_mem ep he1, hn1, hv1⟩

/-- C3 counterexample: two stream entries with the same name and IDENTICAL
implementation references make scan_entrypoints raise the duplicate-name
RuntimeError instead of yielding exactly one entry — the code never
compares the values before raising. -/
theorem scan_identical_duplicate_cex :
    scan_entrypoints [] [⟨"a", "v", "g"⟩, ⟨"a", "v", "g"⟩] =
      .error (.duplicate_name "a" "v" "v") ∧
    scan_entrypoints [] [⟨"a", "v", "g"⟩, ⟨"a", "v", "g"⟩] ≠
      .ok [⟨"a", "v", "g"⟩] := by
  refine ⟨rfl, ?_⟩
  intro hcontra
  rw [show scan_entrypoints [] [⟨"a", "v", "g"⟩, ⟨"a", "v", "g"⟩] =
    .error (.duplicate_name "a" "v" "v") from rfl] at hcontra
  cases hcontra

/-- C3 amended: blocklisted names never appear in the output; discovery
succeeds iff the non-blocklisted entries have pairwise distinct names (a
repeated name aborts discovery even when the implementation references are
identical), in which case the output is exactly the non-blocklisted
entries in order; on failure, the reported error carries a non-blocklisted
name together with two implementation references, both of which come from
stream entries carrying that name. -/
theorem scan_entrypoints_amended (bl : List String) (stream : List EntryPoint) :
    (∀ out, scan_entrypoints bl stream = .ok out →
      out = stream.filter (fun e => e.name ∉ bl) ∧ ∀ e ∈ out, e.name ∉ bl) ∧
    ((∃ out, scan_entrypoints bl stream = .ok out) ↔
      ((stream.filter (fun e => e.name ∉ bl)).map (fun e => e.name)).Nodup) ∧
    (∀ n v1 v2, scan_entrypoints bl stream = .error (.duplicate_name n v1 v2) →
      n ∉ bl ∧ (∃ e ∈ stream, e.name = n ∧ e.value = v1) ∧
      (∃ e ∈ stream, e.name = n ∧ e.value = v2)) := by
  refine ⟨?_, ?_, ?_⟩
  · intro out hout
    have hfe := scan_go_ok bl stream [] out hout
    refine ⟨hfe, ?_⟩
    intro e he
    rw [hfe] at he
    have := List.mem_filter.mp he
    simpa using this.2
  · rw [scan_entrypoints, scan_go_ok_iff bl stream []]
    constructor
    · exact fun h => h.1
    · intro h
      exact ⟨h, fun e _ _ => lookup_name_nil e.name⟩
  · intro n v1 v2 herr
    obtain ⟨hnb, hv2, hfst⟩ := scan_go_error bl stream [] n v1 v2 herr
    refine ⟨hnb, ?_, hv2⟩
    rcases hfst with hfst | hfst
    · rw [lookup_name_nil] at hfst
      cases hfst
    · exact hfst

theorem scan_entrypoints_amended_witness :
    scan_entrypoints ["b"] [⟨"b", "v", "g"⟩, ⟨"a", "w", "g"⟩] =
      .ok [⟨"a", "w", "g"⟩] ∧
    ([⟨"a", "w", "g"⟩] : List EntryPoint) =
      ([⟨"b", "v", "g"⟩, ⟨"a", "w", "g"⟩] : List EntryPoint).filter
        (fun e => e.name ∉ ["b"]) := by
  refine ⟨rfl, ?_⟩
  exact ((scan_entrypoints_amended ["b"] [⟨"b", "v", "g"⟩, ⟨"a", "w", "g"⟩]).1
    [⟨"a", "w", "g"⟩] rfl).1


/-- Helper: computing upgrade on a schema free of audit_logs artifacts. -/
theorem audit_upgrade_computes (s : Schema)
    (h1 : ∀ t ∈ s.tables, t.1 ≠ "audit_logs")
    (h2 : ∀ i ∈ s.indexes, i.table ≠ "audit_logs" ∧ i.name ∉ audit_index_names) :
    upgrade s = .ok { tables := (s.tables ++ [("audit_logs", audit_logs_columns)]),
                      indexes := (s.indexes ++ audit_indexes) } := by
  have ht : ¬ ∃ t ∈ s.tables, t.1 = "audit_logs" := by
    rintro ⟨t, htmem, hteq⟩
    exact h1 t htmem hteq
  have hi : ∀ n ∈ audit_index_names, ¬ ∃ i ∈ s.indexes, i.name = n := by
    rintro n hn ⟨i, himem, hieq⟩
    exact (h2 i himem).2 (hieq ▸ hn)
  have hi1 := hi "ix_audit_logs_access_key" (by simp [audit_index_names])
  have hi2 := hi "ix_audit_logs_action" (by simp [audit_index_names])
  have hi3 := hi "ix_audit_logs_created_at" (by simp [audit_index_names])
  have hi4 := hi "ix_audit_logs_email" (by simp [audit_index_names])
  have hi5 := hi "ix_audit_logs_target" (by simp [audit_index_names])
  have hi6 := hi "ix_audit_logs_user_id" (by simp [audit_index_names])
  simp [upgrade, create_table, create_index, ht, hi1, hi2, hi3, hi4, hi5, hi6,
    audit_indexes, Bind.bind, Except.bind, pure, Except.pure]

/-- Helper: computing downgrade on the upgraded schema. -/
theorem audit_downgrade_computes (s : Schema)
    (h1 : ∀ t ∈ s.tables, t.1 ≠ "audit_logs")
    (h2 : ∀ i ∈ s.indexes, i.table ≠ "audit_logs" ∧ i.name ∉ audit_index_names) :
    downgrade (Schema.mk (s.tables ++ [("audit_logs", audit_logs_columns)])
      (s.indexes ++ audit_indexes)) = .ok s := by
  rw [show (audit_indexes : List TableIndex) = [TableIndex.mk "ix_audit_logs_access_key" "audit_logs" ["access_key"], TableIndex.mk "ix_audit_logs_action" "audit_logs" ["action"], TableIndex.mk "ix_audit_logs_created_at" "audit_logs" ["created_at"], TableIndex.mk "ix_audit_logs_email" "audit_logs" ["email"], TableIndex.mk "ix_audit_logs_target" "audit_logs" ["target"], TableIndex.mk "ix_audit_logs_user_id" "audit_logs" ["user_id"]] from rfl]
  have hfilter : ∀ n ∈ audit_index_names,
      s.indexes.filter (fun i => i.name ≠ n) = s.indexes := by
    intro n hn
    rw [List.filter_eq_self]
    intro i himem
    simp only [ne_eq, decide_not, Bool.not_eq_eq_eq_not, Bool.not_true, decide_eq_false_iff_not]
    intro heq
    exact (h2 i himem).2 (heq ▸ hn)
  have hf1 := hfilter "ix_audit_logs_access_key" (by simp [audit_index_names])
  have hf2 := hfilter "ix_audit_logs_action" (by simp [audit_index_names])
  have hf3 := hfilter "ix_audit_logs_created_at" (by simp [audit_index_names])
  have hf4 := hfilter "ix_audit_logs_email" (by simp [audit_index_names])
  have hf5 := hfilter "ix_audit_logs_target" (by simp [audit_index_names])
  have hf6 := hfilter "ix_audit_logs_user_id" (by simp [audit_index_names])
  have htf : s.tables.filter (fun t => t.1 ≠ "audit_logs") = s.tables := by
    rw [List.filter_eq_self]
    intro t htmem
    simp only [ne_eq, decide_not, Bool.not_eq_eq_eq_not, Bool.not_true, decide_eq_false_iff_not]
    exact h1 t htmem
  have d1 : drop_index (Schema.mk (s.tables ++ [("audit_logs", audit_logs_columns)])
        (s.indexes ++ [TableIndex.mk "ix_audit_logs_access_key" "audit_logs" ["access_key"], TableIndex.mk "ix_audit_logs_action" "audit_logs" ["action"], TableIndex.mk "ix_audit_logs_created_at" "audit_logs" ["created_at"], TableIndex.mk "ix_audit_logs_email" "audit_logs" ["email"], TableIndex.mk "ix_audit_logs_target" "audit_logs" ["target"], TableIndex.mk "ix_audit_logs_user_id" "audit_logs" ["user_id"]])) "ix_audit_logs_user_id" =
      .ok (Schema.mk (s.tables ++ [("audit_logs", audit_logs_columns)])
        (s.indexes ++ [TableIndex.mk "ix_audit_logs_access_key" "audit_logs" ["access_key"], TableIndex.mk "ix_audit_logs_action" "audit_logs" ["action"], TableIndex.mk "ix_audit_logs_created_at" "audit_logs" ["created_at"], TableIndex.mk "ix_audit_logs_email" "audit_logs" ["email"], TableIndex.mk "ix_audit_logs_target" "audit_logs" ["target"]])) := by
    rw [drop_index, if_pos (by simp)]
    rw [List.filter_append, hf6]
    rfl
  have d2 : drop_index (Schema.mk (s.tables ++ [("audit_logs", audit_logs_columns)])
        (s.indexes ++ [TableIndex.mk "ix_audit_logs_access_key" "audit_logs" ["access_key"], TableIndex.mk "ix_audit_logs_action" "audit_logs" ["action"], TableIndex.mk "ix_audit_logs_created_at" "audit_logs" ["created_at"], TableIndex.mk "ix_audit_logs_email" "audit_logs" ["email"], TableIndex.mk "ix_audit_logs_target" "audit_logs" ["target"]])) "ix_audit_logs_target" =
      .ok (Schema.mk (s.tables ++ [("audit_logs", audit_logs_columns)])
        (s.indexes ++ [TableIndex.mk "ix_audit_logs_access_key" "audit_logs" ["access_key"], TableIndex.mk "ix_audit_logs_action" "audit_logs" ["action"], TableIndex.mk "ix_audit_logs_created_at" "audit_logs" ["created_at"], TableIndex.mk "ix_audit_logs_email" "audit_logs" ["email"]])) := by
    rw [drop_index, if_pos (by simp)]
    rw [List.filter_append, hf5]
    rfl
  have d3 : drop_index (Schema.mk (s.tables ++ [("audit_logs", audit_logs_columns)])
        (s.indexes ++ [TableIndex.mk "ix_audit_logs_access_key" "audit_logs" ["access_key"], TableIndex.mk "ix_audit_logs_action" "audit_logs" ["action"], TableIndex.mk "ix_audit_logs_created_at" "audit_logs" ["created_at"], TableIndex.mk "ix_audit_logs_email" "audit_logs" ["email"]])) "ix_audit_logs_email" =
      .ok (Schema.mk (s.tables ++ [("audit_logs", audit_logs_columns)])
        (s.indexes ++ [TableIndex.mk "ix_audit_logs_access_key" "audit_logs" ["access_key"], TableIndex.mk "ix_audit_logs_action" "audit_logs" ["action"], TableIndex.mk "ix_audit_logs_created_at" "audit_logs" ["created_at"]])) := by
    rw [drop_index, if_pos (by simp)]
    rw [List.filter_append, hf4]
    rfl
  have d4 : drop_index (Schema.mk (s.tables ++ [("audit_logs", audit_logs_columns)])
        (s.indexes ++ [TableIndex.mk "ix_audit_logs_access_key" "audit_logs" ["access_key"], TableIndex.mk "ix_audit_logs_action" "audit_logs" ["action"], TableIndex.mk "ix_audit_logs_created_at" "audit_logs" ["created_at"]])) "ix_audit_logs_created_at" =
      .ok (Schema.mk (s.tables ++ [("audit_logs", audit_logs_columns)])
        (s.indexes ++ [TableIndex.mk "ix_audit_logs_access_key" "audit_logs" ["access_key"], TableIndex.mk "ix_audit_logs_action" "audit_logs" ["action"]])) := by
    rw [drop_index, if_pos (by simp)]
    rw [List.filter_append, hf3]
    rfl
  have d5 : drop_index (Schema.mk (s.tables ++ [("audit_logs", audit_logs_columns)])
        (s.indexes ++ [TableIndex.mk "ix_audit_logs_access_key" "audit_logs" ["access_key"], TableIndex.mk "ix_audit_logs_action" "audit_logs" ["action"]])) "ix_audit_logs_action" =
      .ok (Schema.mk (s.tables ++ [("audit_logs", audit_logs_columns)])
        (s.indexes ++ [TableIndex.mk "ix_audit_logs_access_key" "audit_logs" ["access_key"]])) := by
    rw [drop_index, if_pos (by simp)]
    rw [List.filter_append, hf2]
    rfl
  have d6 : drop_index (Schema.mk (s.tables ++ [("audit_logs", audit_logs_columns)])
        (s.indexes ++ [TableIndex.mk "ix_audit_logs_access_key" "audit_logs" ["access_key"]])) "ix_audit_logs_access_key" =
      .ok (Schema.mk (s.tables ++ [("audit_logs", audit_logs_columns)])
        s.indexes) := by
    rw [drop_index, if_pos (by simp)]
    rw [List.filter_append, hf1]
    simp
  have d7 : drop_table
      (Schema.mk (s.tables ++ [("audit_logs", audit_logs_columns)]) s.indexes)
      "audit_logs" = .ok s := by
    rw [drop_table, if_pos (by simp)]
    rw [List.filter_append, htf]
    simp
  rw [downgrade]
  simp only [Bind.bind, Except.bind, d1, d2, d3, d4, d5, d6, d7, pure, Except.pure]

/-- Helper: the audit_logs-table indexes of the upgraded schema are exactly
the six created ones. -/
theorem audit_indexes_on_table (s : Schema)
    (h2 : ∀ i ∈ s.indexes, i.table ≠ "audit_logs" ∧ i.name ∉ audit_index_names) :
    (s.indexes ++ audit_indexes).filter (fun i => i.table = "audit_logs") = audit_indexes := by
  rw [List.filter_append]
  have h0 : s.indexes.filter (fun i => i.table = "audit_logs") = [] := by
    rw [List.filter_eq_nil_iff]
    intro i himem
    simp only [decide_eq_true_eq]
    exact (h2 i himem).1
  rw [h0]
  simp [audit_indexes]

/-- C8: from a schema with no audit_logs table and none of the six audit
index names or audit_logs-table indexes, upgrade succeeds, downgrade then
restores the original schema exactly, and after upgrade the audit_logs
table carries exactly the six single-column indexes on access_key, action,
created_at, email, target and user_id. -/
theorem audit_migration_round_trip (s : Schema)
    (h1 : ∀ t ∈ s.tables, t.1 ≠ "audit_logs")
    (h2 : ∀ i ∈ s.indexes, i.table ≠ "audit_logs" ∧ i.name ∉ audit_index_names) :
    ∃ s2, upgrade s = .ok s2 ∧
      downgrade s2 = .ok s ∧
      s2.indexes.filter (fun i => i.table = "audit_logs") = audit_indexes ∧
      audit_indexes.length = 6 ∧
      (∀ i ∈ audit_indexes, i.columns.length = 1) ∧
      audit_indexes.map (fun i => i.columns) =
        [["access_key"], ["action"], ["created_at"], ["email"], ["target"], ["user_id"]] := by
  refine ⟨Schema.mk (s.tables ++ [("audit_logs", audit_logs_columns)])
    (s.indexes ++ audit_indexes), audit_upgrade_computes s h1 h2,
    audit_downgrade_computes s h1 h2, audit_indexes_on_table s h2, rfl, ?_, rfl⟩
  intro i hi
  simp only [audit_indexes, List.mem_cons, List.not_mem_nil, or_false] at hi
  rcases hi with rfl | rfl | rfl | rfl | rfl | rfl <;> rfl

theorem audit_migration_round_trip_witness :
    (∀ t ∈ (Schema.mk [] []).tables, t.1 ≠ "audit_logs") ∧
    ∃ s2, upgrade (Schema.mk [] []) = .ok s2 ∧ downgrade s2 = .ok (Schema.mk [] []) := by
  refine ⟨by simp, ?_⟩
  obtain ⟨s2, hu, hd, hrest⟩ :=
    audit_migration_round_trip (Schema.mk [] []) (by simp) (by simp)
  exact ⟨s2, hu, hd⟩
